import Mathlib

/-!
Verification of the contract-runtime external adapter
(`src/runtime/runtime/src/ext.rs`): account-scoped storage namespacing,
value CRUD with lazy handles, subtree deletion, deterministic data-id
generation, validator queries, and the error-opacity boundary.

Collaborators that live outside this repository slice (the transactional
trie view, trie-key serialization, the data-id composition, the epoch
provider and the VM error type) are modelled from the specification; each
such definition carries a doc comment saying so.
-/

set_option maxHeartbeats 1000000

namespace NearExt

/-- Byte strings; each element is one byte. -/
abbrev Bytes := List Nat

/-- Boolean prefix test on byte strings: `hasPrefix p l` holds when `l`
starts with `p`. -/
def hasPrefix : Bytes → Bytes → Bool
  | [], _ => true
  | _ :: _, [] => false
  | a :: as, b :: bs => if a = b then hasPrefix as bs else false

/-- Association-list lookup over key/value pairs with byte-string keys. -/
def lookupKV {α : Type} (es : List (Bytes × α)) (k : Bytes) : Option α :=
  (es.find? (fun e => decide (e.1 = k))).map (·.2)

/-! Error types.  `ExternalError` and its conversion into `VMLogicError`
are translated from `ext.rs`; the surrounding error types come from
crates outside this slice and are modelled from the specification. -/

/-- Modelled from the spec: `near_primitives::errors::StorageError` is
external; the adapter only ever produces or propagates its
storage-inconsistency variant ("the underlying store returned data that
violates expected structural invariants"). -/
inductive StorageError where
  | StorageInconsistentState (msg : String)
  deriving DecidableEq

/-- Modelled from the spec: `near_primitives::errors::EpochError` is
external; a single abstract variant stands for "the epoch-information
provider could not answer a stake query". -/
inductive EpochError where
  | EpochDataUnavailable
  deriving DecidableEq

/-- Error used by `RuntimeExt` (translated from `ext.rs`): a tagged union
over storage inconsistency and validator/epoch-data failure. -/
inductive ExternalError where
  | StorageError (e : StorageError)
  | ValidatorError (e : EpochError)
  deriving DecidableEq

/-- Modelled from the spec: `near_vm_errors::AnyError` type-erases the
wrapped error so the sandbox cannot branch on the internal cause; the
original value is retained only for host-side diagnostics. -/
structure AnyError where
  hostDiagnosticsOnly : ExternalError
  deriving DecidableEq

/-- Modelled from the spec: `near_vm_errors::VMLogicError` is external;
`ExternalError` is the single kind the adapter may return across the
boundary, `HostError` stands for the other, sandbox-originated kinds. -/
inductive VMLogicError where
  | ExternalError (e : AnyError)
  | HostError (code : Nat)
  deriving DecidableEq

/-- Translated from `impl From<ExternalError> for VMLogicError` in
`ext.rs`: wrap into the single externally visible kind via `AnyError`. -/
def ExternalError.toVMLogicError (err : ExternalError) : VMLogicError :=
  VMLogicError.ExternalError (AnyError.mk err)

/-- Translated from `ext.rs`: `wrap_storage_error`. -/
def wrap_storage_error (error : StorageError) : VMLogicError :=
  (ExternalError.StorageError error).toVMLogicError

/-- Translated from `ext.rs`: `type ExtResult<T> = Result<T, VMLogicError>`. -/
abbrev ExtResult (α : Type) := Except VMLogicError α

/-! Trie keys.  `TrieKey` and its parsers live in
`near_primitives::trie_key`, outside this slice. -/

/-- Modelled from the spec: the namespace tag byte for contract data
(`col::CONTRACT_DATA`). -/
def CONTRACT_DATA : Nat := 9

/-- Modelled from the spec: the byte separating the account identifier
from the caller-supplied key inside a physical key
(`ACCOUNT_DATA_SEPARATOR`); account identifiers never contain it, which
is what keeps the physical-key format unambiguous. -/
def ACCOUNT_DATA_SEPARATOR : Nat := 44

/-- Modelled from the spec: a valid account identifier never contains the
account-data separator byte (the account-id character set excludes it). -/
def ValidAccountId (a : Bytes) : Prop := ACCOUNT_DATA_SEPARATOR ∉ a

/-- Modelled from the spec: `near_primitives::trie_key::TrieKey`,
restricted to the one variant this adapter constructs. -/
inductive TrieKey where
  | ContractData (account_id : Bytes) (key : Bytes)
  deriving DecidableEq

/-- Modelled from the spec: physical key = namespace tag + account
identifier + separator + caller-supplied byte string
(`TrieKey::to_vec`). -/
def TrieKey.toRawBytes : TrieKey → Bytes
  | TrieKey.ContractData account_id key =>
      [CONTRACT_DATA] ++ account_id ++ [ACCOUNT_DATA_SEPARATOR] ++ key

namespace trie_key_parsers

/-- Modelled from the spec: `get_raw_prefix_for_contract_data` — the raw
physical prefix shared by every contract-data key of `account_id` whose
logical key starts with `pfx`. -/
def get_raw_prefix_for_contract_data (account_id : Bytes) (pfx : Bytes) : Bytes :=
  [CONTRACT_DATA] ++ account_id ++ [ACCOUNT_DATA_SEPARATOR] ++ pfx

/-- Modelled from the spec: `parse_data_key_from_contract_data_key` —
parse a physical key back into its logical suffix; fails when the raw key
does not carry the expected account-scoped header. -/
def parse_data_key_from_contract_data_key (raw_key : Bytes) (account_id : Bytes) :
    Option Bytes :=
  let hdr := [CONTRACT_DATA] ++ account_id ++ [ACCOUNT_DATA_SEPARATOR]
  if hasPrefix hdr raw_key then some (raw_key.drop hdr.length) else none

end trie_key_parsers

/-! The transactional trie view (`near_store::TrieUpdate`), modelled from
the specification. -/

/-- Modelled from the spec: `near_store::TrieUpdate`, the transactional
storage view.  `entries` is the merged key-value content visible to this
invocation; `broken` is the set of physical keys whose underlying trie
nodes are corrupted, so that reading (or iterating across) them surfaces
a storage-inconsistency error.  Buffered mutations overwrite both. -/
structure TrieUpdate where
  entries : List (Bytes × Bytes)
  broken : List Bytes
  deriving DecidableEq

instance instDecidableEqExcept {ε α : Type} [DecidableEq ε] [DecidableEq α] :
    DecidableEq (Except ε α) := fun x y =>
  match x, y with
  | Except.error e1, Except.error e2 =>
      if h : e1 = e2 then Decidable.isTrue (by rw [h])
      else Decidable.isFalse (by intro hc; cases hc; exact h rfl)
  | Except.error _, Except.ok _ => Decidable.isFalse (by intro hc; cases hc)
  | Except.ok _, Except.error _ => Decidable.isFalse (by intro hc; cases hc)
  | Except.ok a1, Except.ok a2 =>
      if h : a1 = a2 then Decidable.isTrue (by rw [h])
      else Decidable.isFalse (by intro hc; cases hc; exact h rfl)

/-- Modelled from the spec: the lazy value reference handed out by
`TrieUpdate::get_ref` — byte length available without a read, plus the
deferred (fallible) read itself. -/
structure TrieUpdateValuePtr where
  length : Nat
  deferredRead : Except StorageError Bytes
  deriving DecidableEq

/-- Modelled from the spec: `TrieUpdate::get_ref` — fails with a
storage-inconsistency error only on internal corruption, never on
legitimate absence. -/
def TrieUpdate.get_ref (tu : TrieUpdate) (key : TrieKey) :
    Except StorageError (Option TrieUpdateValuePtr) :=
  let raw := key.toRawBytes
  if raw ∈ tu.broken then
    Except.error (StorageError.StorageInconsistentState "node read failed")
  else
    Except.ok ((lookupKV tu.entries raw).map
      (fun v => TrieUpdateValuePtr.mk v.length (Except.ok v)))

/-- Modelled from the spec: `TrieUpdate::set` — records a pending
overwrite in the transactional view; never fails. -/
def TrieUpdate.set (tu : TrieUpdate) (key : TrieKey) (value : Bytes) : TrieUpdate :=
  let raw := key.toRawBytes
  TrieUpdate.mk ((raw, value) :: tu.entries.filter (fun e => decide (e.1 ≠ raw)))
    (tu.broken.filter (fun b => decide (b ≠ raw)))

/-- Modelled from the spec: `TrieUpdate::remove` — marks the key deleted
in the transactional view; never fails, even on an absent key. -/
def TrieUpdate.remove (tu : TrieUpdate) (key : TrieKey) : TrieUpdate :=
  let raw := key.toRawBytes
  TrieUpdate.mk (tu.entries.filter (fun e => decide (e.1 ≠ raw)))
    (tu.broken.filter (fun b => decide (b ≠ raw)))

/-- Modelled from the spec: `TrieUpdate::iter` — enumerate every physical
key under a raw prefix; traversal across a corrupted node surfaces a
storage-inconsistency error instead of a key list. -/
def TrieUpdate.iter (tu : TrieUpdate) (rawPrefix : Bytes) :
    Except StorageError (List Bytes) :=
  if tu.broken.any (fun b => hasPrefix rawPrefix b) then
    Except.error (StorageError.StorageInconsistentState "node traversal failed")
  else
    Except.ok ((tu.entries.map (·.1)).filter (fun rk => hasPrefix rawPrefix rk))

/-! Deterministic identifier generation
(`near_primitives::utils::create_data_id`), modelled from the
specification. -/

/-- Modelled from the spec: a content hash.  Cryptographic hashing is an
external primitive treated as an ideal (collision-free) content address,
so it is modelled as an injective function of the hashed bytes. -/
structure CryptoHash where
  digestOf : Bytes
  deriving DecidableEq

/-- Modelled from the spec: the ideal content-hash function. -/
def hashBytes (input : Bytes) : CryptoHash := CryptoHash.mk input

/-- Little-endian 64-bit encoding of a counter value, as used when a
`u64`/`usize` index is fed into the hashed composition. -/
def le64 (n : Nat) : Bytes :=
  [n % 256, n / 256 % 256, n / 256 ^ 2 % 256, n / 256 ^ 3 % 256,
   n / 256 ^ 4 % 256, n / 256 ^ 5 % 256, n / 256 ^ 6 % 256, n / 256 ^ 7 % 256]

/-- Modelled from the spec: the protocol version at which the id
composition switched from the legacy form to the upgradable form; the
dispatch itself is load-bearing, the concrete threshold is not. -/
def CREATE_HASH_PROTOCOL_VERSION : Nat := 38

/-- Modelled from the spec:
`near_primitives::utils::create_data_id(protocol_version, action_hash,
prev_block_hash, last_block_hash, data_index)` — a content hash over a
composition of invocation-scoped inputs, dispatching on the protocol
version to select the composition. -/
def create_data_id (protocol_version : Nat) (action_hash prev_block_hash
    last_block_hash : CryptoHash) (data_index : Nat) : CryptoHash :=
  if CREATE_HASH_PROTOCOL_VERSION ≤ protocol_version then
    hashBytes (le64 protocol_version ++ action_hash.digestOf ++
      prev_block_hash.digestOf ++ last_block_hash.digestOf ++ le64 data_index)
  else
    hashBytes (action_hash.digestOf ++ le64 data_index)

/-! Validator information (`near_primitives::types::EpochInfoProvider`),
modelled from the specification. -/

/-- Account balances (`u128`); modelled as naturals since no balance
arithmetic happens in this adapter. -/
abbrev Balance := Nat

/-- Modelled from the spec: the external epoch-information provider.
`validators` gives the validator set with stakes for an (epoch id,
block anchor) pair — absence from it means "not a validator in that
epoch"; `unavailable` marks the (epoch id, block anchor) pairs for which
the provider fails. -/
structure EpochInfoProvider where
  validators : Bytes → CryptoHash → List (Bytes × Balance)
  unavailable : Bytes → CryptoHash → Bool

/-- Modelled from the spec: `EpochInfoProvider::validator_stake` —
stake-of(account) for an epoch, absent when the account is not a
validator, failing when epoch data is unavailable. -/
def EpochInfoProvider.validator_stake (p : EpochInfoProvider) (epoch_id : Bytes)
    (block_hash : CryptoHash) (account_id : Bytes) :
    Except EpochError (Option Balance) :=
  if p.unavailable epoch_id block_hash then
    Except.error EpochError.EpochDataUnavailable
  else
    Except.ok (lookupKV (p.validators epoch_id block_hash) account_id)

/-- Modelled from the spec: `EpochInfoProvider::validator_total_stake` —
the aggregate stake for the epoch; same failure mode, never absent. -/
def EpochInfoProvider.validator_total_stake (p : EpochInfoProvider)
    (epoch_id : Bytes) (block_hash : CryptoHash) : Except EpochError Balance :=
  if p.unavailable epoch_id block_hash then
    Except.error EpochError.EpochDataUnavailable
  else
    Except.ok (((p.validators epoch_id block_hash).map (·.2)).sum)

/-! The adapter itself, translated from `ext.rs`. -/

/-- Translated from `ext.rs`: the invocation-scoped adapter state
(`RuntimeExt`).  The epoch-information provider, a borrowed external
collaborator, is passed to the operations that use it. -/
structure RuntimeExt where
  trie_update : TrieUpdate
  account_id : Bytes
  action_hash : CryptoHash
  data_count : Nat
  epoch_id : Bytes
  prev_block_hash : CryptoHash
  last_block_hash : CryptoHash
  current_protocol_version : Nat
  deriving DecidableEq

/-- Translated from `ext.rs`: `RuntimeExt::create_storage_key` — scope a
caller-supplied logical key to the invocation account. -/
def RuntimeExt.create_storage_key (ext : RuntimeExt) (key : Bytes) : TrieKey :=
  TrieKey.ContractData ext.account_id key

/-- Translated from `ext.rs`: `RuntimeExtValuePtr`, the lazy value handle
returned to the sandbox. -/
structure RuntimeExtValuePtr where
  inner : TrieUpdateValuePtr
  deriving DecidableEq

/-- Translated from `ext.rs`: `ValuePtr::len` for `RuntimeExtValuePtr`. -/
def RuntimeExtValuePtr.len (p : RuntimeExtValuePtr) : Nat := p.inner.length

/-- Translated from `ext.rs`: `ValuePtr::deref` for `RuntimeExtValuePtr` —
perform the deferred read, wrapping storage errors. -/
def RuntimeExtValuePtr.deref (p : RuntimeExtValuePtr) : ExtResult Bytes :=
  p.inner.deferredRead.mapError wrap_storage_error

/-- Translated from `ext.rs`: `storage_set` — namespaced unconditional
overwrite; never fails.  Takes `&mut self`, so the updated state is
returned alongside the result. -/
def RuntimeExt.storage_set (ext : RuntimeExt) (key value : Bytes) :
    ExtResult Unit × RuntimeExt :=
  let storage_key := ext.create_storage_key key
  (Except.ok (), { ext with trie_update := ext.trie_update.set storage_key value })

/-- Translated from `ext.rs`: `storage_get` — namespaced lookup returning
a lazy handle on hit; takes `&self`, hence no state change is possible
and only the result is returned. -/
def RuntimeExt.storage_get (ext : RuntimeExt) (key : Bytes) :
    ExtResult (Option RuntimeExtValuePtr) :=
  let storage_key := ext.create_storage_key key
  ((ext.trie_update.get_ref storage_key).mapError wrap_storage_error).map
    (fun o => o.map RuntimeExtValuePtr.mk)

/-- Translated from `ext.rs`: `storage_remove` — namespaced deletion mark;
never fails. -/
def RuntimeExt.storage_remove (ext : RuntimeExt) (key : Bytes) :
    ExtResult Unit × RuntimeExt :=
  let storage_key := ext.create_storage_key key
  (Except.ok (), { ext with trie_update := ext.trie_update.remove storage_key })

/-- Translated from `ext.rs`: `storage_has_key` — presence check through
`get_ref`; declared `&mut self` in the source but its body performs no
mutation, so the returned state is the input state. -/
def RuntimeExt.storage_has_key (ext : RuntimeExt) (key : Bytes) :
    ExtResult Bool × RuntimeExt :=
  let storage_key := ext.create_storage_key key
  (((ext.trie_update.get_ref storage_key).map
      (fun x => x.isSome)).mapError wrap_storage_error, ext)

/-- Translated from `ext.rs`: `storage_remove_subtree` — collect every
physical key under the account-scoped raw prefix, parse each back into
its logical suffix (any failure aborts the whole operation with a
storage-inconsistency error), and only then delete the collected keys. -/
def RuntimeExt.storage_remove_subtree (ext : RuntimeExt) (pfx : Bytes) :
    ExtResult Unit × RuntimeExt :=
  let rawPrefix :=
    trie_key_parsers.get_raw_prefix_for_contract_data ext.account_id pfx
  match ext.trie_update.iter rawPrefix with
  | Except.error e => (Except.error (wrap_storage_error e), ext)
  | Except.ok raw_keys =>
    let parsed : Except StorageError (List Bytes) :=
      raw_keys.mapM (fun raw_key =>
        match trie_key_parsers.parse_data_key_from_contract_data_key raw_key
            ext.account_id with
        | some data_key => Except.ok data_key
        | none => Except.error (StorageError.StorageInconsistentState
            "Can not parse data key from raw key for ContractData"))
    match parsed with
    | Except.error e => (Except.error (wrap_storage_error e), ext)
    | Except.ok data_keys =>
      let tu2 := data_keys.foldl
        (fun tu key => tu.remove (TrieKey.ContractData ext.account_id key))
        ext.trie_update
      (Except.ok (), { ext with trie_update := tu2 })

/-- Translated from `ext.rs`: `generate_data_id` — derive the next
deterministic identifier from the invocation-scoped inputs and the
counter, then increment the counter.  Infallible by type. -/
def RuntimeExt.generate_data_id (ext : RuntimeExt) : CryptoHash × RuntimeExt :=
  let data_id := create_data_id ext.current_protocol_version ext.action_hash
    ext.prev_block_hash ext.last_block_hash ext.data_count
  (data_id, { ext with data_count := ext.data_count + 1 })

/-- Translated from `ext.rs`: `validator_stake` — forward to the epoch
provider, scoped to the invocation epoch id and previous-block anchor,
wrapping provider failure as a validator error. -/
def RuntimeExt.validator_stake (ext : RuntimeExt) (prov : EpochInfoProvider)
    (account_id : Bytes) : ExtResult (Option Balance) :=
  (prov.validator_stake ext.epoch_id ext.prev_block_hash account_id).mapError
    (fun e => (ExternalError.ValidatorError e).toVMLogicError)

/-- Translated from `ext.rs`: `validator_total_stake` — forward to the
epoch provider, same scoping and wrapping. -/
def RuntimeExt.validator_total_stake (ext : RuntimeExt)
    (prov : EpochInfoProvider) : ExtResult Balance :=
  (prov.validator_total_stake ext.epoch_id ext.prev_block_hash).mapError
    (fun e => (ExternalError.ValidatorError e).toVMLogicError)

/-! Helper lemmas about the trie-update model. -/

/-- The contract-data physical-key header: tag byte, account id,
separator.  Every physical key of an account extends exactly this. -/
def contractDataHeader (account_id : Bytes) : Bytes :=
  [CONTRACT_DATA] ++ account_id ++ [ACCOUNT_DATA_SEPARATOR]

/-- The logical suffixes of the physical keys the subtree eraser collects
for (account, pfx): introduced to state the evaluation lemma below. -/
def subtreeDataKeys (ext : RuntimeExt) (pfx : Bytes) : List Bytes :=
  ((ext.trie_update.entries.map (·.1)).filter
      (fun rk => hasPrefix (trie_key_parsers.get_raw_prefix_for_contract_data
        ext.account_id pfx) rk)).map
    (fun rk => rk.drop (contractDataHeader ext.account_id).length)

/-- The trie view left after deleting every collected subtree key. -/
def subtreeRemoved (ext : RuntimeExt) (pfx : Bytes) : TrieUpdate :=
  (subtreeDataKeys ext pfx).foldl
    (fun tu key => tu.remove (TrieKey.ContractData ext.account_id key))
    ext.trie_update

/-! Concrete fixtures used to evaluate the theorems on closed inputs:
account `[97]` ("a") holding logical keys `[1,2]`, `[1,3]` and `[9]`. -/

/-- A healthy sample trie view for account `[97]`. -/
def sampleTrieUpdate : TrieUpdate :=
  TrieUpdate.mk
    [([9, 97, 44, 1, 2], [7]), ([9, 97, 44, 1, 3], [8]), ([9, 97, 44, 9], [5])]
    []

/-- A sample invocation context over `sampleTrieUpdate`. -/
def sampleExt : RuntimeExt :=
  RuntimeExt.mk sampleTrieUpdate [97] (CryptoHash.mk [1]) 0 [2]
    (CryptoHash.mk [3]) (CryptoHash.mk [4]) 50

/-- An invocation context whose trie holds one corrupted node under the
account namespace, so reads and subtree iteration fail on it. -/
def brokenExt : RuntimeExt :=
  RuntimeExt.mk (TrieUpdate.mk [] [[9, 97, 44, 5]]) [97] (CryptoHash.mk [1]) 0
    [2] (CryptoHash.mk [3]) (CryptoHash.mk [4]) 50

/-- A sample epoch provider: account `[97]` stakes 100, never failing. -/
def sampleProv : EpochInfoProvider :=
  EpochInfoProvider.mk (fun _ _ => [([97], 100)]) (fun _ _ => false)

theorem hasPrefix_append (p t : Bytes) : hasPrefix p (p ++ t) = true := by
  induction p with
  | nil => rfl
  | cons a as ih => simp [hasPrefix, ih]

theorem hasPrefix_iff (p l : Bytes) : hasPrefix p l = true ↔ ∃ t, l = p ++ t := by
  induction p generalizing l with
  | nil => simp [hasPrefix]
  | cons a as ih =>
    cases l with
    | nil =>
      constructor
      · intro h; simp [hasPrefix] at h
      · rintro ⟨t, ht⟩; simp at ht
    | cons b bs =>
      constructor
      · intro h
        by_cases hab : a = b
        · subst hab
          have h2 : hasPrefix as bs = true := by simpa [hasPrefix] using h
          obtain ⟨t, ht⟩ := (ih bs).mp h2
          exact ⟨t, by simp [ht]⟩
        · simp [hasPrefix, hab] at h
      · rintro ⟨t, ht⟩
        injection ht with h1 h2
        subst h1
        have hh : hasPrefix as bs = true := (ih bs).mpr ⟨t, by simpa using h2⟩
        simp [hasPrefix, hh]

theorem hasPrefix_cancel (x a b : Bytes) :
    hasPrefix (x ++ a) (x ++ b) = hasPrefix a b := by
  induction x with
  | nil => rfl
  | cons c cs ih => simp [hasPrefix, ih]

theorem lookupKV_nil {α : Type} (k : Bytes) : lookupKV ([] : List (Bytes × α)) k = none := rfl

theorem lookupKV_cons {α : Type} (k1 : Bytes) (v : α) (es : List (Bytes × α)) (k : Bytes) :
    lookupKV ((k1, v) :: es) k = if k1 = k then some v else lookupKV es k := by
  by_cases h : k1 = k <;> simp [lookupKV, List.find?, h]

theorem lookupKV_filter_ne (es : List (Bytes × Bytes)) (a k : Bytes) :
    lookupKV (es.filter (fun e => decide (e.1 ≠ a))) k
      = if k = a then none else lookupKV es k := by
  induction es with
  | nil => simp [lookupKV_nil]
  | cons e es ih =>
    obtain ⟨k1, v⟩ := e
    by_cases h1 : k1 = a
    · subst h1
      by_cases h2 : k1 = k <;>
        simp_all [List.filter, lookupKV_cons]
    · by_cases h2 : k1 = k
      · subst h2
        simp [List.filter, h1, lookupKV_cons]
      · simp_all [List.filter, lookupKV_cons]

theorem toRawBytes_eq_header (account_id key : Bytes) :
    (TrieKey.ContractData account_id key).toRawBytes
      = contractDataHeader account_id ++ key := by
  simp [TrieKey.toRawBytes, contractDataHeader]

theorem raw_prefix_eq_header (account_id pfx : Bytes) :
    trie_key_parsers.get_raw_prefix_for_contract_data account_id pfx
      = contractDataHeader account_id ++ pfx := by
  simp [trie_key_parsers.get_raw_prefix_for_contract_data, contractDataHeader]

theorem lookupKV_eq_none_of_not_mem (es : List (Bytes × Bytes)) (k : Bytes)
    (h : k ∉ es.map (·.1)) : lookupKV es k = none := by
  induction es with
  | nil => rfl
  | cons e es ih =>
    obtain ⟨k1, v⟩ := e
    simp only [List.map_cons, List.mem_cons] at h
    push_neg at h
    rw [lookupKV_cons, if_neg (fun hh => h.1 hh.symm)]
    exact ih h.2

theorem lookupKV_mem_of_eq_some (es : List (Bytes × Bytes)) (k v : Bytes)
    (h : lookupKV es k = some v) : k ∈ es.map (·.1) := by
  by_contra hmem
  rw [lookupKV_eq_none_of_not_mem es k hmem] at h
  cases h

theorem mem_broken_set (tu : TrieUpdate) (tk : TrieKey) (v b : Bytes) :
    b ∈ (tu.set tk v).broken ↔ b ∈ tu.broken ∧ b ≠ tk.toRawBytes := by
  simp [TrieUpdate.set, List.mem_filter]

theorem mem_broken_remove (tu : TrieUpdate) (tk : TrieKey) (b : Bytes) :
    b ∈ (tu.remove tk).broken ↔ b ∈ tu.broken ∧ b ≠ tk.toRawBytes := by
  simp [TrieUpdate.remove, List.mem_filter]

theorem lookup_entries_remove (tu : TrieUpdate) (tk : TrieKey) (b : Bytes) :
    lookupKV (tu.remove tk).entries b
      = if b = tk.toRawBytes then none else lookupKV tu.entries b := by
  simp only [TrieUpdate.remove]
  exact lookupKV_filter_ne tu.entries tk.toRawBytes b

theorem get_ref_set_same (tu : TrieUpdate) (tk : TrieKey) (v : Bytes) :
    (tu.set tk v).get_ref tk
      = Except.ok (some (TrieUpdateValuePtr.mk v.length (Except.ok v))) := by
  have hb : tk.toRawBytes ∉ (tu.set tk v).broken := by
    rw [mem_broken_set]; simp
  rw [TrieUpdate.get_ref, if_neg hb]
  simp only [TrieUpdate.set]
  rw [lookupKV_cons, if_pos rfl]
  rfl

theorem get_ref_set_ne (tu : TrieUpdate) (tk1 tk2 : TrieKey) (v : Bytes)
    (h : tk2.toRawBytes ≠ tk1.toRawBytes) :
    (tu.set tk1 v).get_ref tk2 = tu.get_ref tk2 := by
  have hb : tk2.toRawBytes ∈ (tu.set tk1 v).broken ↔ tk2.toRawBytes ∈ tu.broken := by
    rw [mem_broken_set]
    exact ⟨fun hh => hh.1, fun hh => ⟨hh, h⟩⟩
  rw [TrieUpdate.get_ref, TrieUpdate.get_ref]
  by_cases hmem : tk2.toRawBytes ∈ tu.broken
  · rw [if_pos (hb.mpr hmem), if_pos hmem]
  · rw [if_neg (fun hh => hmem (hb.mp hh)), if_neg hmem]
    simp only [TrieUpdate.set]
    rw [lookupKV_cons, if_neg (fun hh => h hh.symm), lookupKV_filter_ne,
      if_neg h]

theorem get_ref_remove_same (tu : TrieUpdate) (tk : TrieKey) :
    (tu.remove tk).get_ref tk = Except.ok none := by
  have hb : tk.toRawBytes ∉ (tu.remove tk).broken := by
    rw [mem_broken_remove]; simp
  rw [TrieUpdate.get_ref, if_neg hb]
  rw [lookup_entries_remove, if_pos rfl]
  rfl

/-! C5, C6, C7, C10: value-access layer contracts. -/

/-- C5: set/get round-trip — `storage_set(k, v)` always succeeds, and a
subsequent `storage_get(k)` on the same account returns a handle that
dereferences to exactly `v` and whose length equals the length of `v`. -/
theorem storage_set_get_roundtrip (ext : RuntimeExt) (k v : Bytes) :
    (ext.storage_set k v).1 = Except.ok () ∧
    ∃ p : RuntimeExtValuePtr,
      RuntimeExt.storage_get (ext.storage_set k v).2 k = Except.ok (some p) ∧
      p.deref = Except.ok v ∧ p.len = v.length := by
  refine ⟨rfl, ⟨RuntimeExtValuePtr.mk (TrieUpdateValuePtr.mk v.length (Except.ok v)),
    ?_, rfl, rfl⟩⟩
  simp only [RuntimeExt.storage_get, RuntimeExt.storage_set,
    RuntimeExt.create_storage_key]
  rw [get_ref_set_same]
  rfl

/-- C6: remove is idempotent and infallible — `storage_remove(k)` always
returns success, a subsequent `storage_get(k)` returns absent, and
removing the (now absent) key again leaves the state identical. -/
theorem storage_remove_idempotent (ext : RuntimeExt) (k : Bytes) :
    (ext.storage_remove k).1 = Except.ok () ∧
    RuntimeExt.storage_get (ext.storage_remove k).2 k = Except.ok none ∧
    (RuntimeExt.storage_remove (ext.storage_remove k).2 k).2
      = (ext.storage_remove k).2 := by
  refine ⟨rfl, ?_, ?_⟩
  · simp only [RuntimeExt.storage_get, RuntimeExt.storage_remove,
      RuntimeExt.create_storage_key]
    rw [get_ref_remove_same]
    rfl
  · simp only [RuntimeExt.storage_remove, RuntimeExt.create_storage_key]
    simp [TrieUpdate.remove, List.filter_filter]

/-- C7: has_key/get agreement — `storage_has_key` returns exactly the
presence bit of `storage_get`, and fails (with the same wrapped storage
error) exactly when `storage_get` fails. -/
theorem storage_has_key_agrees_with_get (ext : RuntimeExt) (k : Bytes) :
    (ext.storage_has_key k).1
      = (ext.storage_get k).map (fun o => o.isSome) := by
  simp only [RuntimeExt.storage_has_key, RuntimeExt.storage_get]
  cases hres : ext.trie_update.get_ref (ext.create_storage_key k) with
  | error e => simp [Except.map, Except.mapError]
  | ok o => cases o <;> simp [Except.map, Except.mapError]

/-- C10: read operations do not mutate state — `storage_has_key` (despite
its mutable receiver) returns the invocation context unchanged, and
`generate_data_id` (infallible by its type) changes nothing except the
identifier counter, which it increments by exactly one.  `storage_get`
takes a shared borrow in the source and is therefore modelled as a pure
function, which makes its statelessness structural. -/
theorem read_ops_preserve_state (ext : RuntimeExt) (k : Bytes) :
    (ext.storage_has_key k).2 = ext ∧
    (ext.generate_data_id).2 = { ext with data_count := ext.data_count + 1 } :=
  ⟨rfl, rfl⟩

/-! C8: error opacity. -/

theorem remove_subtree_error_shape (ext : RuntimeExt) (pfx : Bytes)
    (e : VMLogicError)
    (h : (ext.storage_remove_subtree pfx).1 = Except.error e) :
    ∃ se : StorageError, e = wrap_storage_error se := by
  simp only [RuntimeExt.storage_remove_subtree] at h
  cases hiter : ext.trie_update.iter
      (trie_key_parsers.get_raw_prefix_for_contract_data ext.account_id pfx) with
  | error e0 =>
    rw [hiter] at h
    exact ⟨e0, (Except.error.injEq _ _).mp h.symm⟩
  | ok raw_keys =>
    rw [hiter] at h
    simp only at h
    cases hparsed : raw_keys.mapM (fun raw_key =>
        match trie_key_parsers.parse_data_key_from_contract_data_key raw_key
            ext.account_id with
        | some data_key => Except.ok data_key
        | none => Except.error (StorageError.StorageInconsistentState
            "Can not parse data key from raw key for ContractData")) with
    | error e0 =>
      rw [hparsed] at h
      exact ⟨e0, (Except.error.injEq _ _).mp h.symm⟩
    | ok data_keys =>
      rw [hparsed] at h
      cases h

/-- C8: error opacity — any failure returned to the sandbox by any
operation of the adapter, whatever its internal origin, is the single
externally visible kind `VMLogicError.ExternalError`, produced by
wrapping at the point of origin; the sandbox cannot branch on the
internal cause. -/
theorem error_opacity (ext : RuntimeExt) (prov : EpochInfoProvider)
    (k pfx a : Bytes) (e : VMLogicError)
    (h : ext.storage_get k = Except.error e ∨
         (ext.storage_has_key k).1 = Except.error e ∨
         (ext.storage_remove_subtree pfx).1 = Except.error e ∨
         ext.validator_stake prov a = Except.error e ∨
         ext.validator_total_stake prov = Except.error e) :
    ∃ inner : AnyError, e = VMLogicError.ExternalError inner := by
  rcases h with h | h | h | h | h
  · simp only [RuntimeExt.storage_get] at h
    cases hres : ext.trie_update.get_ref (ext.create_storage_key k) with
    | error e0 =>
      rw [hres] at h
      simp only [Except.mapError, Except.map] at h
      exact ⟨AnyError.mk (ExternalError.StorageError e0),
        (Except.error.injEq _ _).mp h.symm⟩
    | ok o => rw [hres] at h; simp [Except.mapError, Except.map] at h
  · simp only [RuntimeExt.storage_has_key] at h
    cases hres : ext.trie_update.get_ref (ext.create_storage_key k) with
    | error e0 =>
      rw [hres] at h
      simp only [Except.mapError, Except.map] at h
      exact ⟨AnyError.mk (ExternalError.StorageError e0),
        (Except.error.injEq _ _).mp h.symm⟩
    | ok o => rw [hres] at h; simp [Except.mapError, Except.map] at h
  · obtain ⟨se, hse⟩ := remove_subtree_error_shape ext pfx e h
    exact ⟨AnyError.mk (ExternalError.StorageError se), hse⟩
  · simp only [RuntimeExt.validator_stake] at h
    cases hres : prov.validator_stake ext.epoch_id ext.prev_block_hash a with
    | error e0 =>
      rw [hres] at h
      simp only [Except.mapError] at h
      exact ⟨AnyError.mk (ExternalError.ValidatorError e0),
        (Except.error.injEq _ _).mp h.symm⟩
    | ok o => rw [hres] at h; simp [Except.mapError] at h
  · simp only [RuntimeExt.validator_total_stake] at h
    cases hres : prov.validator_total_stake ext.epoch_id ext.prev_block_hash with
    | error e0 =>
      rw [hres] at h
      simp only [Except.mapError] at h
      exact ⟨AnyError.mk (ExternalError.ValidatorError e0),
        (Except.error.injEq _ _).mp h.symm⟩
    | ok o => rw [hres] at h; simp [Except.mapError] at h

/-! C9: validator queries. -/

/-- C9: validator queries — both queries are forwarded verbatim to the
provider, scoped to the invocation epoch id and previous-block anchor
(no caching in the adapter); a non-validator account yields absent, not
a failure; a registered validator yields its balance unchanged; provider
failure is wrapped as the opaque validator error; and a successful
total-stake call always yields a balance. -/
theorem validator_query_contract (ext : RuntimeExt) (prov : EpochInfoProvider)
    (a : Bytes) :
    (RuntimeExt.validator_stake ext prov a
      = (prov.validator_stake ext.epoch_id ext.prev_block_hash a).mapError
          (fun e => (ExternalError.ValidatorError e).toVMLogicError)) ∧
    (RuntimeExt.validator_total_stake ext prov
      = (prov.validator_total_stake ext.epoch_id ext.prev_block_hash).mapError
          (fun e => (ExternalError.ValidatorError e).toVMLogicError)) ∧
    (prov.unavailable ext.epoch_id ext.prev_block_hash = false →
      (lookupKV (prov.validators ext.epoch_id ext.prev_block_hash) a = none →
        ext.validator_stake prov a = Except.ok none) ∧
      (∀ b : Balance,
        lookupKV (prov.validators ext.epoch_id ext.prev_block_hash) a = some b →
        ext.validator_stake prov a = Except.ok (some b)) ∧
      (∃ total : Balance,
        ext.validator_total_stake prov = Except.ok total)) ∧
    (prov.unavailable ext.epoch_id ext.prev_block_hash = true →
      ext.validator_stake prov a = Except.error
        ((ExternalError.ValidatorError EpochError.EpochDataUnavailable).toVMLogicError) ∧
      ext.validator_total_stake prov = Except.error
        ((ExternalError.ValidatorError EpochError.EpochDataUnavailable).toVMLogicError)) := by
  refine ⟨rfl, rfl, fun hok => ⟨?_, ?_, ?_⟩, fun hbad => ⟨?_, ?_⟩⟩
  · intro hnone
    simp [RuntimeExt.validator_stake, EpochInfoProvider.validator_stake, hok,
      hnone, Except.mapError]
  · intro b hsome
    simp [RuntimeExt.validator_stake, EpochInfoProvider.validator_stake, hok,
      hsome, Except.mapError]
  · exact ⟨((prov.validators ext.epoch_id ext.prev_block_hash).map (·.2)).sum,
      by simp [RuntimeExt.validator_total_stake,
        EpochInfoProvider.validator_total_stake, hok, Except.mapError]⟩
  · simp [RuntimeExt.validator_stake, EpochInfoProvider.validator_stake, hbad,
      Except.mapError]
  · simp [RuntimeExt.validator_total_stake,
      EpochInfoProvider.validator_total_stake, hbad, Except.mapError]

/-! C2: deterministic identifier generation. -/

theorem le64_inj (i j : Nat) (hi : i < 2 ^ 64) (hj : j < 2 ^ 64)
    (h : le64 i = le64 j) : i = j := by
  simp only [le64, List.cons.injEq, and_true] at h
  omega

theorem create_data_id_index_inj (ver : Nat) (a p l : CryptoHash) (i j : Nat)
    (hi : i < 2 ^ 64) (hj : j < 2 ^ 64) (hij : i ≠ j) :
    create_data_id ver a p l i ≠ create_data_id ver a p l j := by
  intro h
  unfold create_data_id at h
  by_cases hver : CREATE_HASH_PROTOCOL_VERSION ≤ ver
  · rw [if_pos hver, if_pos hver] at h
    simp only [hashBytes, CryptoHash.mk.injEq] at h
    exact hij (le64_inj i j hi hj (List.append_cancel_left h))
  · rw [if_neg hver, if_neg hver] at h
    simp only [hashBytes, CryptoHash.mk.injEq] at h
    exact hij (le64_inj i j hi hj (List.append_cancel_left h))

/-- C2: deterministic id generation — with a fixed protocol version,
action hash and block anchors, `generate_data_id` is a pure function of
the call index (any two executions with equal inputs produce
byte-for-byte equal identifiers), and distinct call indices within one
invocation produce distinct identifiers. -/
theorem generate_data_id_deterministic_and_distinct (ext ext2 : RuntimeExt)
    (hver : ext.current_protocol_version = ext2.current_protocol_version)
    (hact : ext.action_hash = ext2.action_hash)
    (hprev : ext.prev_block_hash = ext2.prev_block_hash)
    (hlast : ext.last_block_hash = ext2.last_block_hash)
    (hi : ext.data_count < 2 ^ 64) (hj : ext2.data_count < 2 ^ 64) :
    (ext.data_count = ext2.data_count →
      (RuntimeExt.generate_data_id ext).1 = (RuntimeExt.generate_data_id ext2).1) ∧
    (ext.data_count ≠ ext2.data_count →
      (RuntimeExt.generate_data_id ext).1 ≠ (RuntimeExt.generate_data_id ext2).1) := by
  constructor
  · intro hcount
    simp [RuntimeExt.generate_data_id, hver, hact, hprev, hlast, hcount]
  · intro hcount
    simp only [RuntimeExt.generate_data_id, hver, hact, hprev, hlast]
    exact create_data_id_index_inj ext2.current_protocol_version
      ext2.action_hash ext2.prev_block_hash ext2.last_block_hash
      ext.data_count ext2.data_count hi hj hcount

/-! C1: account isolation. -/

theorem sep_append_inj (A B k k2 : Bytes) (hA : ACCOUNT_DATA_SEPARATOR ∉ A)
    (hB : ACCOUNT_DATA_SEPARATOR ∉ B)
    (h : A ++ ACCOUNT_DATA_SEPARATOR :: k = B ++ ACCOUNT_DATA_SEPARATOR :: k2) :
    A = B ∧ k = k2 := by
  induction A generalizing B with
  | nil =>
    cases B with
    | nil => simpa using h
    | cons b bs =>
      exfalso
      simp only [List.nil_append, List.cons_append, List.cons.injEq] at h
      exact hB (h.1 ▸ List.mem_cons_self b bs)
  | cons a as ih =>
    cases B with
    | nil =>
      exfalso
      simp only [List.nil_append, List.cons_append, List.cons.injEq] at h
      exact hA (h.1.symm ▸ List.mem_cons_self a as)
    | cons b bs =>
      simp only [List.cons_append, List.cons.injEq] at h
      have hA2 : ACCOUNT_DATA_SEPARATOR ∉ as := fun hm => hA (List.mem_cons_of_mem a hm)
      have hB2 : ACCOUNT_DATA_SEPARATOR ∉ bs := fun hm => hB (List.mem_cons_of_mem b hm)
      obtain ⟨hab, hk⟩ := ih bs hA2 hB2 h.2
      exact ⟨by rw [h.1, hab], hk⟩

theorem contract_data_raw_ne (A B k k2 : Bytes) (hA : ValidAccountId A)
    (hB : ValidAccountId B) (hAB : A ≠ B) :
    (TrieKey.ContractData A k).toRawBytes ≠ (TrieKey.ContractData B k2).toRawBytes := by
  intro h
  simp only [TrieKey.toRawBytes, List.cons_append, List.nil_append,
    List.cons.injEq, true_and] at h
  have h2 : A ++ ACCOUNT_DATA_SEPARATOR :: k = B ++ ACCOUNT_DATA_SEPARATOR :: k2 := by
    simpa using h
  exact hAB (sep_append_inj A B k k2 hA hB h2).1

/-- C1: account isolation — a value written through `storage_set` under
one account changes nothing that `storage_get` or `storage_has_key` can
observe under any other (valid, distinct) account at the same logical
key, because `create_storage_key` scopes every physical key to exactly
one account. -/
theorem account_isolation (ext : RuntimeExt) (B k v : Bytes)
    (hA : ValidAccountId ext.account_id) (hB : ValidAccountId B)
    (hAB : ext.account_id ≠ B) :
    RuntimeExt.storage_get
        { ext with trie_update := (ext.storage_set k v).2.trie_update,
                   account_id := B } k
      = RuntimeExt.storage_get { ext with account_id := B } k ∧
    (RuntimeExt.storage_has_key
        { ext with trie_update := (ext.storage_set k v).2.trie_update,
                   account_id := B } k).1
      = (RuntimeExt.storage_has_key { ext with account_id := B } k).1 := by
  have hraw : (TrieKey.ContractData B k).toRawBytes
      ≠ (TrieKey.ContractData ext.account_id k).toRawBytes :=
    contract_data_raw_ne B ext.account_id k k hB hA (Ne.symm hAB)
  have hget : (ext.trie_update.set (TrieKey.ContractData ext.account_id k) v).get_ref
      (TrieKey.ContractData B k) = ext.trie_update.get_ref (TrieKey.ContractData B k) :=
    get_ref_set_ne ext.trie_update (TrieKey.ContractData ext.account_id k)
      (TrieKey.ContractData B k) v hraw
  constructor
  · simp only [RuntimeExt.storage_get, RuntimeExt.storage_set,
      RuntimeExt.create_storage_key]
    rw [hget]
  · simp only [RuntimeExt.storage_has_key, RuntimeExt.storage_set,
      RuntimeExt.create_storage_key]
    rw [hget]

/-! C3, C4: subtree deletion. -/

theorem foldl_remove_broken (A : Bytes) (L : List Bytes) (tu : TrieUpdate) (b : Bytes) :
    b ∈ (L.foldl (fun t k => t.remove (TrieKey.ContractData A k)) tu).broken ↔
      b ∈ tu.broken ∧ ∀ k ∈ L, b ≠ (TrieKey.ContractData A k).toRawBytes := by
  induction L generalizing tu with
  | nil => simp
  | cons k0 L ih =>
    simp only [List.foldl_cons, ih, mem_broken_remove]
    constructor
    · rintro ⟨⟨hb, hne⟩, hall⟩
      refine ⟨hb, fun k hk => ?_⟩
      rcases List.mem_cons.mp hk with h | h
      · subst h; exact hne
      · exact hall k h
    · rintro ⟨hb, hall⟩
      exact ⟨⟨hb, hall k0 (List.mem_cons_self k0 L)⟩,
        fun k hk => hall k (List.mem_cons_of_mem k0 hk)⟩

theorem foldl_remove_lookup (A : Bytes) (L : List Bytes) (tu : TrieUpdate) (b : Bytes) :
    lookupKV (L.foldl (fun t k => t.remove (TrieKey.ContractData A k)) tu).entries b
      = if ∃ k ∈ L, b = (TrieKey.ContractData A k).toRawBytes then none
        else lookupKV tu.entries b := by
  induction L generalizing tu with
  | nil => simp
  | cons k0 L ih =>
    simp only [List.foldl_cons]
    rw [ih]
    by_cases h0 : b = (TrieKey.ContractData A k0).toRawBytes
    · by_cases hL : ∃ k ∈ L, b = (TrieKey.ContractData A k).toRawBytes <;>
        simp [h0, hL, lookup_entries_remove]
    · by_cases hL : ∃ k ∈ L, b = (TrieKey.ContractData A k).toRawBytes <;>
        simp [h0, hL, lookup_entries_remove]

theorem parse_of_raw_prefix (A pfx raw : Bytes)
    (h : hasPrefix (contractDataHeader A ++ pfx) raw = true) :
    trie_key_parsers.parse_data_key_from_contract_data_key raw A
      = some (raw.drop (contractDataHeader A).length) := by
  obtain ⟨t, rfl⟩ := (hasPrefix_iff _ _).mp h
  have hhdr : hasPrefix (contractDataHeader A) (contractDataHeader A ++ pfx ++ t)
      = true := by
    rw [List.append_assoc]
    exact hasPrefix_append (contractDataHeader A) (pfx ++ t)
  simp only [trie_key_parsers.parse_data_key_from_contract_data_key,
    contractDataHeader] at hhdr ⊢
  rw [if_pos hhdr]

theorem mapM_ok {α β : Type} (f : α → Except StorageError β) (g : α → β)
    (L : List α) (h : ∀ x ∈ L, f x = Except.ok (g x)) :
    L.mapM f = Except.ok (L.map g) := by
  induction L with
  | nil => rfl
  | cons x L ih =>
    rw [List.mapM_cons, h x (List.mem_cons_self x L),
      ih (fun y hy => h y (List.mem_cons_of_mem x hy))]
    rfl

theorem remove_subtree_eval (ext : RuntimeExt) (pfx : Bytes)
    (hb : ∀ b ∈ ext.trie_update.broken,
      hasPrefix (trie_key_parsers.get_raw_prefix_for_contract_data
        ext.account_id pfx) b = false) :
    ext.storage_remove_subtree pfx
      = (Except.ok (), { ext with trie_update := subtreeRemoved ext pfx }) := by
  have hany : ext.trie_update.broken.any
      (fun b => hasPrefix (trie_key_parsers.get_raw_prefix_for_contract_data
        ext.account_id pfx) b) = false := by
    rw [List.any_eq_false]
    intro b hbb
    simp [hb b hbb]
  have hiter : ext.trie_update.iter
      (trie_key_parsers.get_raw_prefix_for_contract_data ext.account_id pfx)
      = Except.ok ((ext.trie_update.entries.map (·.1)).filter
          (fun rk => hasPrefix (trie_key_parsers.get_raw_prefix_for_contract_data
            ext.account_id pfx) rk)) := by
    rw [TrieUpdate.iter, if_neg (by simp [hany])]
  have hparse : ∀ rk ∈ (ext.trie_update.entries.map (·.1)).filter
      (fun rk => hasPrefix (trie_key_parsers.get_raw_prefix_for_contract_data
        ext.account_id pfx) rk),
      trie_key_parsers.parse_data_key_from_contract_data_key rk ext.account_id
        = some (rk.drop (contractDataHeader ext.account_id).length) := by
    intro rk hrk
    have hpre := (List.mem_filter.mp hrk).2
    rw [raw_prefix_eq_header] at hpre
    exact parse_of_raw_prefix ext.account_id pfx rk hpre
  have hmapM : ((ext.trie_update.entries.map (·.1)).filter
      (fun rk => hasPrefix (trie_key_parsers.get_raw_prefix_for_contract_data
        ext.account_id pfx) rk)).mapM (fun raw_key =>
        match trie_key_parsers.parse_data_key_from_contract_data_key raw_key
            ext.account_id with
        | some data_key => Except.ok data_key
        | none => Except.error (StorageError.StorageInconsistentState
            "Can not parse data key from raw key for ContractData"))
      = Except.ok (((ext.trie_update.entries.map (·.1)).filter
          (fun rk => hasPrefix (trie_key_parsers.get_raw_prefix_for_contract_data
            ext.account_id pfx) rk)).map
          (fun rk => rk.drop (contractDataHeader ext.account_id).length)) := by
    apply mapM_ok
    intro x hx
    rw [hparse x hx]
  simp only [RuntimeExt.storage_remove_subtree, hiter, hmapM,
    subtreeRemoved, subtreeDataKeys]

theorem remove_subtree_ok_broken (ext : RuntimeExt) (pfx : Bytes)
    (h : (ext.storage_remove_subtree pfx).1 = Except.ok ()) :
    ∀ b ∈ ext.trie_update.broken,
      hasPrefix (trie_key_parsers.get_raw_prefix_for_contract_data
        ext.account_id pfx) b = false := by
  intro b hbb
  by_contra hcon
  have htrue : hasPrefix (trie_key_parsers.get_raw_prefix_for_contract_data
      ext.account_id pfx) b = true := by
    cases hx : hasPrefix (trie_key_parsers.get_raw_prefix_for_contract_data
      ext.account_id pfx) b
    · exact absurd hx hcon
    · rfl
  have hany : ext.trie_update.broken.any
      (fun x => hasPrefix (trie_key_parsers.get_raw_prefix_for_contract_data
        ext.account_id pfx) x) = true :=
    List.any_eq_true.mpr ⟨b, hbb, htrue⟩
  simp only [RuntimeExt.storage_remove_subtree, TrieUpdate.iter, hany,
    if_true] at h
  cases h

/-- C3: subtree-deletion atomicity — `storage_remove_subtree` collects
and parses all matching physical keys before touching the store, so
whenever it returns an error (a failed collection or a failed parse of a
collected key, both wrapped as storage-inconsistency), the state is
returned unchanged; deletions happen only after the whole collection
phase has succeeded. -/
theorem storage_remove_subtree_atomic (ext : RuntimeExt) (pfx : Bytes)
    (e : VMLogicError)
    (h : (ext.storage_remove_subtree pfx).1 = Except.error e) :
    (ext.storage_remove_subtree pfx).2 = ext := by
  simp only [RuntimeExt.storage_remove_subtree] at h ⊢
  cases hiter : ext.trie_update.iter
      (trie_key_parsers.get_raw_prefix_for_contract_data ext.account_id pfx) with
  | error e0 => rfl
  | ok raw_keys =>
    simp only at h ⊢
    cases hparsed : raw_keys.mapM (fun raw_key =>
        match trie_key_parsers.parse_data_key_from_contract_data_key raw_key
            ext.account_id with
        | some data_key => Except.ok data_key
        | none => Except.error (StorageError.StorageInconsistentState
            "Can not parse data key from raw key for ContractData")) with
    | error e0 => rfl
    | ok data_keys =>
      rw [hiter] at h
      simp only at h
      rw [hparsed] at h
      simp at h

theorem drop_header (A x : Bytes) :
    (contractDataHeader A ++ x).drop (contractDataHeader A).length = x := by
  simp

theorem mem_subtreeDataKeys (ext : RuntimeExt) (pfx k : Bytes) :
    k ∈ subtreeDataKeys ext pfx ↔
      hasPrefix pfx k = true ∧
      (TrieKey.ContractData ext.account_id k).toRawBytes
        ∈ ext.trie_update.entries.map (·.1) := by
  constructor
  · intro hk
    obtain ⟨rk, hrk, hdrop⟩ := List.mem_map.mp hk
    obtain ⟨hmem, hpre⟩ := List.mem_filter.mp hrk
    rw [raw_prefix_eq_header] at hpre
    obtain ⟨t, rfl⟩ := (hasPrefix_iff _ _).mp (by simpa using hpre)
    rw [List.append_assoc, drop_header] at hdrop
    subst hdrop
    refine ⟨hasPrefix_append pfx t, ?_⟩
    rw [toRawBytes_eq_header, ← List.append_assoc]
    exact hmem
  · rintro ⟨hpre, hmem⟩
    apply List.mem_map.mpr
    refine ⟨(TrieKey.ContractData ext.account_id k).toRawBytes, ?_, ?_⟩
    · apply List.mem_filter.mpr
      refine ⟨hmem, ?_⟩
      rw [raw_prefix_eq_header, toRawBytes_eq_header]
      simpa [hasPrefix_cancel] using hpre
    · rw [toRawBytes_eq_header, drop_header]

theorem get_ref_subtreeRemoved_matching (ext : RuntimeExt) (pfx k : Bytes)
    (hb : ∀ b ∈ ext.trie_update.broken,
      hasPrefix (trie_key_parsers.get_raw_prefix_for_contract_data
        ext.account_id pfx) b = false)
    (hk : hasPrefix pfx k = true) :
    (subtreeRemoved ext pfx).get_ref (TrieKey.ContractData ext.account_id k)
      = Except.ok none := by
  have hplift : hasPrefix (trie_key_parsers.get_raw_prefix_for_contract_data
      ext.account_id pfx) (TrieKey.ContractData ext.account_id k).toRawBytes = true := by
    rw [raw_prefix_eq_header, toRawBytes_eq_header, hasPrefix_cancel]
    exact hk
  have hbroken : (TrieKey.ContractData ext.account_id k).toRawBytes
      ∉ (subtreeRemoved ext pfx).broken := by
    intro hmem
    have h1 := (foldl_remove_broken ext.account_id (subtreeDataKeys ext pfx)
      ext.trie_update _).mp hmem
    have h2 := hb _ h1.1
    rw [hplift] at h2
    cases h2
  rw [TrieUpdate.get_ref, if_neg hbroken]
  have hlook : lookupKV (subtreeRemoved ext pfx).entries
      (TrieKey.ContractData ext.account_id k).toRawBytes = none := by
    rw [subtreeRemoved, foldl_remove_lookup]
    by_cases hmem : (TrieKey.ContractData ext.account_id k).toRawBytes
        ∈ ext.trie_update.entries.map (·.1)
    · rw [if_pos ⟨k, (mem_subtreeDataKeys ext pfx k).mpr ⟨hk, hmem⟩, rfl⟩]
    · by_cases hex : ∃ k2 ∈ subtreeDataKeys ext pfx,
          (TrieKey.ContractData ext.account_id k).toRawBytes
            = (TrieKey.ContractData ext.account_id k2).toRawBytes
      · rw [if_pos hex]
      · rw [if_neg hex]
        exact lookupKV_eq_none_of_not_mem _ _ hmem
  rw [hlook]
  rfl

theorem get_ref_subtreeRemoved_frame (ext : RuntimeExt) (pfx k : Bytes)
    (hk : hasPrefix pfx k = false) :
    (subtreeRemoved ext pfx).get_ref (TrieKey.ContractData ext.account_id k)
      = ext.trie_update.get_ref (TrieKey.ContractData ext.account_id k) := by
  have hne : ∀ k2 ∈ subtreeDataKeys ext pfx,
      (TrieKey.ContractData ext.account_id k).toRawBytes
        ≠ (TrieKey.ContractData ext.account_id k2).toRawBytes := by
    intro k2 hk2 heq
    have hp2 := ((mem_subtreeDataKeys ext pfx k2).mp hk2).1
    rw [toRawBytes_eq_header, toRawBytes_eq_header] at heq
    have hkk : k = k2 := List.append_cancel_left heq
    rw [hkk, hp2] at hk
    cases hk
  have hbroken : (TrieKey.ContractData ext.account_id k).toRawBytes
      ∈ (subtreeRemoved ext pfx).broken ↔
      (TrieKey.ContractData ext.account_id k).toRawBytes
        ∈ ext.trie_update.broken := by
    rw [subtreeRemoved, foldl_remove_broken]
    exact ⟨fun hh => hh.1, fun hh => ⟨hh, hne⟩⟩
  have hlook : lookupKV (subtreeRemoved ext pfx).entries
      (TrieKey.ContractData ext.account_id k).toRawBytes
      = lookupKV ext.trie_update.entries
        (TrieKey.ContractData ext.account_id k).toRawBytes := by
    rw [subtreeRemoved, foldl_remove_lookup, if_neg]
    rintro ⟨k2, hk2, heq⟩
    exact hne k2 hk2 heq
  rw [TrieUpdate.get_ref, TrieUpdate.get_ref]
  by_cases hmem : (TrieKey.ContractData ext.account_id k).toRawBytes
      ∈ ext.trie_update.broken
  · rw [if_pos (hbroken.mpr hmem), if_pos hmem]
  · rw [if_neg (fun hh => hmem (hbroken.mp hh)), if_neg hmem, hlook]

/-- C4: subtree-deletion postcondition and frame — after a successful
`storage_remove_subtree(prefix)`, `storage_has_key` is false for every
previously existing logical key of the current account that starts with
the prefix, and `storage_get` is unchanged on every key of the account
that does not start with the prefix. -/
theorem storage_remove_subtree_post_frame (ext : RuntimeExt) (pfx : Bytes)
    (h : (ext.storage_remove_subtree pfx).1 = Except.ok ()) :
    (∀ k, hasPrefix pfx k = true →
      (ext.storage_has_key k).1 = Except.ok true →
      (RuntimeExt.storage_has_key (ext.storage_remove_subtree pfx).2 k).1
        = Except.ok false) ∧
    (∀ k, hasPrefix pfx k = false →
      RuntimeExt.storage_get (ext.storage_remove_subtree pfx).2 k
        = ext.storage_get k) := by
  have hb := remove_subtree_ok_broken ext pfx h
  have heval := remove_subtree_eval ext pfx hb
  rw [heval]
  constructor
  · intro k hk _
    simp only [RuntimeExt.storage_has_key, RuntimeExt.create_storage_key]
    rw [get_ref_subtreeRemoved_matching ext pfx k hb hk]
    rfl
  · intro k hk
    simp only [RuntimeExt.storage_get, RuntimeExt.create_storage_key]
    rw [get_ref_subtreeRemoved_frame ext pfx k hk]

/-! Closed witnesses instantiating the theorems above on the fixtures. -/

/-- Witness for C1: a write by account `[97]` at logical key `[1]` is
invisible to account `[98]` at the same logical key. -/
theorem account_isolation_witness :
    RuntimeExt.storage_get
        { sampleExt with
            trie_update := (sampleExt.storage_set [1] [9]).2.trie_update,
            account_id := [98] } [1]
      = RuntimeExt.storage_get { sampleExt with account_id := [98] } [1] ∧
    (RuntimeExt.storage_has_key
        { sampleExt with
            trie_update := (sampleExt.storage_set [1] [9]).2.trie_update,
            account_id := [98] } [1]).1
      = (RuntimeExt.storage_has_key { sampleExt with account_id := [98] } [1]).1 :=
  account_isolation sampleExt [98] [1] [9]
    (show ACCOUNT_DATA_SEPARATOR ∉ sampleExt.account_id by decide)
    (show ACCOUNT_DATA_SEPARATOR ∉ ([98] : Bytes) by decide) (by decide)

/-- Witness for C2: counters 0 and 1 give distinct identifiers. -/
theorem generate_data_id_witness :
    (RuntimeExt.generate_data_id sampleExt).1
      ≠ (RuntimeExt.generate_data_id { sampleExt with data_count := 1 }).1 :=
  (generate_data_id_deterministic_and_distinct sampleExt
    { sampleExt with data_count := 1 } rfl rfl rfl rfl (by decide) (by decide)).2
    (by decide)

/-- Witness for C3: a corrupted node under the account namespace makes
subtree deletion fail, and the returned state equals the input state. -/
theorem storage_remove_subtree_atomic_witness :
    (brokenExt.storage_remove_subtree []).2 = brokenExt :=
  storage_remove_subtree_atomic brokenExt []
    (wrap_storage_error (StorageError.StorageInconsistentState
      "node traversal failed"))
    (by decide)

/-- Witness for C4: deleting the `[1]`-subtree makes `[1, 2]` absent and
leaves `[9]` observably unchanged. -/
theorem storage_remove_subtree_post_frame_witness :
    (RuntimeExt.storage_has_key (sampleExt.storage_remove_subtree [1]).2 [1, 2]).1
      = Except.ok false ∧
    RuntimeExt.storage_get (sampleExt.storage_remove_subtree [1]).2 [9]
      = sampleExt.storage_get [9] := by
  have h := storage_remove_subtree_post_frame sampleExt [1] (by decide)
  exact ⟨h.1 [1, 2] (by decide) (by decide), h.2 [9] (by decide)⟩

/-- Witness for C8: a concrete read failure crosses the boundary as the
single opaque kind. -/
theorem error_opacity_witness :
    ∃ inner : AnyError,
      wrap_storage_error (StorageError.StorageInconsistentState "node read failed")
        = VMLogicError.ExternalError inner :=
  error_opacity brokenExt sampleProv [5] [] [97]
    (wrap_storage_error (StorageError.StorageInconsistentState "node read failed"))
    (Or.inl (by decide))

/-- Witness for C9: on the sample provider, the validator `[97]` reads
back its stake and the non-validator `[98]` reads back absent. -/
theorem validator_query_witness :
    sampleExt.validator_stake sampleProv [97] = Except.ok (some 100) ∧
    sampleExt.validator_stake sampleProv [98] = Except.ok none := by
  have h := validator_query_contract sampleExt sampleProv [97]
  have h2 := validator_query_contract sampleExt sampleProv [98]
  exact ⟨((h.2.2.1 rfl).2.1 100 (by decide)), ((h2.2.2.1 rfl).1 (by decide))⟩

end NearExt
